import Mathlib

/-!
Verification development for the yt-transcriber repository.

The definitions below are shallow embeddings of the JavaScript helpers that
the repository duplicates across its handler variants:

* `extractVideoId` / `normalizeYouTubeUrl` (backend/index.js and the api
  handlers): three regexes tried in order, `[?&]v=([^&]+)`,
  `youtu\.be\/([^?]+)` and `youtube\.com\/shorts\/([^?]+)`; the first match
  wins and its first capture group is the video id.
* the output formatters `formatTranscriptAsText` / `formatTranscriptAsSrt`
  with `formatTime` (api/transcript-simple.js);
* the Piped audio picker `pickAudioAndExt` and the ytdl `guessExt` helper;
* the Piped mirror fallback loop `getPipedStreams` with its attempts log;
* the temp-directory cleanup behaviour of the Piped and yt-dlp handlers.

Strings are modelled as Lean `String` with the regex scans written as
explicit leftmost-match functions over `List Char`, mirroring the JS regex
engine behaviour (scan positions left to right, greedy character classes).
-/

namespace YtTranscriber

/-- JS `a || b` applied to regex match results: the left operand wins when it
is non-null. -/
def jsOr {α : Type} (a b : Option α) : Option α :=
  match a with
  | some x => some x
  | none => b

theorem jsOr_some {α : Type} (x : α) (b : Option α) : jsOr (some x) b = some x := rfl

theorem jsOr_none {α : Type} (b : Option α) : jsOr none b = b := rfl

/-- JS `Array.prototype.join(sep)`: empty array gives the empty string,
otherwise elements are interleaved with the separator. -/
def joinWith (sep : String) : List String → String
  | [] => ""
  | [x] => x
  | x :: y :: xs => x ++ sep ++ joinWith sep (y :: xs)

/-! ## The three URL regexes

`matchVParam` models `u.match(/[?&]v=([^&]+)/)`: the leftmost position
holding a `?` or `&` immediately followed by `v=` and at least one
non-`&` character; the capture is the greedy run of non-`&` characters.
`matchAfter marker stop` models `u.match(/<marker>([^<stop>]+)/)` for the
literal markers `youtu.be/` and `youtube.com/shorts/`. -/

/-- Greedy capture of `([^&]+)` : the longest run of non-`&` characters. -/
def vCapture (t : List Char) : List Char := t.takeWhile (fun c => c ≠ '&')

/-- Two-character lookahead for the literal `v=` of `[?&]v=`. -/
def afterVEq : List Char → Option (List Char)
  | a :: b :: t => if a = 'v' ∧ b = '=' then some t else none
  | _ => none

/-- Leftmost match of `[?&]v=([^&]+)`, returning the capture group. -/
def matchVParam : List Char → Option (List Char)
  | [] => none
  | c :: rest =>
    if (c = '?' ∨ c = '&') ∧ afterVEq rest ≠ none ∧ vCapture ((afterVEq rest).getD []) ≠ []
    then some (vCapture ((afterVEq rest).getD []))
    else matchVParam rest

/-- Leftmost match of a literal marker followed by `([^<stop>]+)`,
returning the capture group. -/
def matchAfter (marker : List Char) (stop : Char) : List Char → Option (List Char)
  | [] => none
  | c :: rest =>
    if marker.isPrefixOf (c :: rest) = true ∧
        ((c :: rest).drop marker.length).takeWhile (fun x => x ≠ stop) ≠ []
    then some (((c :: rest).drop marker.length).takeWhile (fun x => x ≠ stop))
    else matchAfter marker stop rest

def beMarker : List Char := "youtu.be/".data

def shortsMarker : List Char := "youtube.com/shorts/".data

/-- Shared regex chain of `extractVideoId` and `normalizeYouTubeUrl`: both
JS functions evaluate `[?&]v=` first, then `youtu.be/`, then
`youtube.com/shorts/`, and use the first capture that matches. -/
def regexCapture (u : String) : Option (List Char) :=
  jsOr (matchVParam u.data)
    (jsOr (matchAfter beMarker '?' u.data) (matchAfter shortsMarker '?' u.data))

/-- Embedding of `extractVideoId(u)`: returns the matched capture group or
null. -/
def extractVideoId (u : String) : Option String :=
  (regexCapture u).map fun cap => (⟨cap⟩ : String)

/-- Embedding of `normalizeYouTubeUrl(input)`: falsy (empty) input is
returned unchanged; a matching capture is rebuilt into the canonical watch
URL; otherwise the input is returned unchanged. -/
def normalizeYouTubeUrl (input : String) : String :=
  if input = "" then input
  else
    match regexCapture input with
    | some cap => "https://www.youtube.com/watch?v=" ++ (⟨cap⟩ : String)
    | none => input

/-! ## Scanning lemmas for the regex model -/

theorem matchVParam_cons_of_not (c : Char) (rest : List Char)
    (h : ¬ (c = '?' ∨ c = '&')) : matchVParam (c :: rest) = matchVParam rest := by
  rw [matchVParam]
  exact if_neg (fun hc => h hc.1)

theorem matchVParam_append_of_clean (l1 l2 : List Char)
    (h : ∀ c ∈ l1, ¬ (c = '?' ∨ c = '&')) :
    matchVParam (l1 ++ l2) = matchVParam l2 := by
  induction l1 with
  | nil => rfl
  | cons c rest ih =>
    rw [List.cons_append, matchVParam_cons_of_not c (rest ++ l2) (h c (List.mem_cons_self c rest))]
    exact ih (fun x hx => h x (List.mem_cons_of_mem c hx))

theorem matchVParam_eq_none (l : List Char)
    (h : ∀ c ∈ l, ¬ (c = '?' ∨ c = '&')) : matchVParam l = none := by
  have h1 : matchVParam (l ++ []) = matchVParam [] := matchVParam_append_of_clean l [] h
  rwa [List.append_nil] at h1

theorem matchVParam_qveq (t : List Char) (h : vCapture t ≠ []) :
    matchVParam ('?' :: 'v' :: '=' :: t) = some (vCapture t) := by
  have hv : afterVEq ('v' :: '=' :: t) = some t := by simp [afterVEq]
  rw [matchVParam, if_pos]
  · rw [hv]
    rfl
  · refine ⟨Or.inl rfl, ?_, ?_⟩
    · rw [hv]
      exact fun hc => Option.noConfusion hc
    · rw [hv]
      exact h

theorem matchVParam_some (l cap : List Char) (h : matchVParam l = some cap) :
    cap ≠ [] ∧ ∀ c ∈ cap, c ≠ '&' := by
  induction l with
  | nil => exact absurd h (by rw [matchVParam]; exact fun hc => Option.noConfusion hc)
  | cons c rest ih =>
    rw [matchVParam] at h
    by_cases hc : (c = '?' ∨ c = '&') ∧ afterVEq rest ≠ none ∧
        vCapture ((afterVEq rest).getD []) ≠ []
    · rw [if_pos hc] at h
      have hcap : cap = vCapture ((afterVEq rest).getD []) := (Option.some.injEq _ _).mp h.symm ▸ rfl
      constructor
      · rw [hcap]; exact hc.2.2
      · intro x hx
        rw [hcap] at hx
        have := List.mem_takeWhile_imp hx
        simpa using this
    · rw [if_neg hc] at h
      exact ih h

theorem matchAfter_cons_of_not (marker : List Char) (stop c : Char) (rest : List Char)
    (h : ¬ marker <+: (c :: rest)) :
    matchAfter marker stop (c :: rest) = matchAfter marker stop rest := by
  rw [matchAfter]
  refine if_neg (fun hc => h ?_)
  exact List.isPrefixOf_iff_prefix.mp hc.1

/-- A concrete chunk `pp` rules out a marker occurrence at its start when the
marker mismatches it at some position before either list runs out. -/
def chunkMismatch : List Char → List Char → Bool
  | [], _ => false
  | _ :: _, [] => false
  | m :: ms, p :: ps => if m = p then chunkMismatch ms ps else true

theorem chunkMismatch_sound (marker pp : List Char)
    (h : chunkMismatch marker pp = true) (l2 : List Char) :
    ¬ marker <+: (pp ++ l2) := by
  induction marker generalizing pp with
  | nil => rw [chunkMismatch] at h; exact absurd h (by simp)
  | cons m ms ih =>
    match pp with
    | [] => rw [chunkMismatch] at h; exact absurd h (by simp)
    | p :: ps =>
      rw [chunkMismatch] at h
      intro hpre
      rw [List.cons_append, List.cons_prefix_cons] at hpre
      rcases hpre with ⟨hmp, htail⟩
      rw [if_pos hmp] at h
      exact ih ps h htail

/-- Checks that the marker occurs at no position of the concrete list `l1`,
regardless of what follows `l1`. -/
def noOccurIn (marker : List Char) : List Char → Bool
  | [] => true
  | l@(_ :: rest) => chunkMismatch marker l && noOccurIn marker rest

theorem matchAfter_append_of_noOccur (marker : List Char) (stop : Char)
    (l1 l2 : List Char) (h : noOccurIn marker l1 = true) :
    matchAfter marker stop (l1 ++ l2) = matchAfter marker stop l2 := by
  induction l1 with
  | nil => rfl
  | cons c rest ih =>
    rw [noOccurIn, Bool.and_eq_true] at h
    rw [List.cons_append,
      matchAfter_cons_of_not marker stop c (rest ++ l2)
        (by
          have := chunkMismatch_sound marker (c :: rest) h.1 l2
          rwa [List.cons_append] at this)]
    exact ih h.2

theorem matchAfter_none_of_excluded (marker : List Char) (stop : Char)
    (allowed : List Char) (l : List Char)
    (hm : ∃ x ∈ marker, x ∉ allowed) (hl : ∀ c ∈ l, c ∈ allowed) :
    matchAfter marker stop l = none := by
  induction l with
  | nil => rfl
  | cons c rest ih =>
    rw [matchAfter_cons_of_not marker stop c rest]
    · exact ih (fun x hx => hl x (List.mem_cons_of_mem c hx))
    · intro hpre
      rcases hm with ⟨x, hxm, hxa⟩
      exact hxa (hl x (hpre.subset hxm))

theorem matchAfter_marker_self (marker : List Char) (stop : Char) (l2 : List Char)
    (hne : marker ≠ []) (h : l2.takeWhile (fun x => x ≠ stop) ≠ []) :
    matchAfter marker stop (marker ++ l2) = some (l2.takeWhile (fun x => x ≠ stop)) := by
  match marker with
  | [] => exact absurd rfl hne
  | m :: ms =>
    rw [List.cons_append, matchAfter, if_pos]
    · rw [show (m :: (ms ++ l2)) = (m :: ms) ++ l2 from rfl, List.drop_left]
    · constructor
      · refine List.isPrefixOf_iff_prefix.mpr ?_
        rw [show (m :: (ms ++ l2)) = (m :: ms) ++ l2 from rfl]
        exact List.prefix_append (m :: ms) l2
      · rw [show (m :: (ms ++ l2)) = (m :: ms) ++ l2 from rfl, List.drop_left]
        exact h

theorem matchAfter_some (marker : List Char) (stop : Char) (l cap : List Char)
    (h : matchAfter marker stop l = some cap) :
    cap ≠ [] ∧ ∀ c ∈ cap, c ≠ stop := by
  induction l with
  | nil => exact absurd h (by rw [matchAfter]; exact fun hc => Option.noConfusion hc)
  | cons c rest ih =>
    rw [matchAfter] at h
    by_cases hc : marker.isPrefixOf (c :: rest) = true ∧
        ((c :: rest).drop marker.length).takeWhile (fun x => x ≠ stop) ≠ []
    · rw [if_pos hc] at h
      have hcap : cap = ((c :: rest).drop marker.length).takeWhile (fun x => x ≠ stop) :=
        (Option.some.injEq _ _).mp h.symm ▸ rfl
      constructor
      · rw [hcap]; exact hc.2
      · intro x hx
        rw [hcap] at hx
        have := List.mem_takeWhile_imp hx
        simpa using this
    · rw [if_neg hc] at h
      exact ih h

theorem regexCapture_ne_nil (s : String) (cap : List Char)
    (h : regexCapture s = some cap) : cap ≠ [] := by
  unfold regexCapture at h
  cases h1 : matchVParam s.data with
  | some c1 =>
    rw [h1, jsOr_some] at h
    have hc : c1 = cap := Option.some.inj h
    exact hc ▸ (matchVParam_some s.data c1 h1).1
  | none =>
    rw [h1, jsOr_none] at h
    cases h2 : matchAfter beMarker '?' s.data with
    | some c2 =>
      rw [h2, jsOr_some] at h
      have hc : c2 = cap := Option.some.inj h
      exact hc ▸ (matchAfter_some beMarker '?' s.data c2 h2).1
    | none =>
      rw [h2, jsOr_none] at h
      exact (matchAfter_some shortsMarker '?' s.data cap h).1

/-- Alphabet of YouTube video identifiers: letters, digits, dash and
underscore. -/
def idChars : List Char :=
  "ABCDEFGHIJKLMNOPQRSTUVWXYZabcdefghijklmnopqrstuvwxyz0123456789-_".data

theorem idChars_clean : ∀ c ∈ idChars, ¬ (c = '?' ∨ c = '&') := by decide

/-- Unfolding of the watch-URL prefix into its scan-relevant pieces. -/
theorem watch_data_split (id : String) :
    ("https://www.youtube.com/watch?v=" ++ id).data =
      "https://www.youtube.com/watch".data ++ ('?' :: 'v' :: '=' :: id.data) := by
  rw [String.data_append]
  rfl

theorem matchVParam_watch (id : String) (hne : id.data ≠ [])
    (hamp : ∀ c ∈ id.data, c ≠ '&') :
    matchVParam ("https://www.youtube.com/watch?v=" ++ id).data = some id.data := by
  rw [watch_data_split,
    matchVParam_append_of_clean "https://www.youtube.com/watch".data _ (by decide)]
  have hcap : vCapture id.data = id.data := by
    refine List.takeWhile_eq_self_iff.mpr ?_
    intro x hx
    simpa using hamp x hx
  rw [matchVParam_qveq id.data (by rw [hcap]; exact hne), hcap]

theorem extractVideoId_watch (id : String) (hne : id.data ≠ [])
    (hamp : ∀ c ∈ id.data, c ≠ '&') :
    extractVideoId ("https://www.youtube.com/watch?v=" ++ id) = some id := by
  unfold extractVideoId regexCapture
  rw [matchVParam_watch id hne hamp, jsOr_some]
  rfl

theorem extractVideoId_be (id : String) (hne : id.data ≠ [])
    (hchars : ∀ c ∈ id.data, c ∈ idChars) :
    extractVideoId ("https://youtu.be/" ++ id) = some id := by
  have hbase : ∀ c ∈ "https://youtu.be/".data, ¬ (c = '?' ∨ c = '&') := by decide
  have hclean : ∀ c ∈ ("https://youtu.be/" ++ id).data, ¬ (c = '?' ∨ c = '&') := by
    rw [String.data_append]
    intro c hc
    rcases List.mem_append.mp hc with hb | hi
    · exact hbase c hb
    · exact idChars_clean c (hchars c hi)
  have hq : id.data.takeWhile (fun x => x ≠ '?') = id.data := by
    refine List.takeWhile_eq_self_iff.mpr ?_
    intro x hx
    have := idChars_clean x (hchars x hx)
    simp only [not_or] at this
    simpa using this.1
  unfold extractVideoId regexCapture
  rw [matchVParam_eq_none _ hclean, jsOr_none]
  have hsplit : ("https://youtu.be/" ++ id).data =
      "https://".data ++ (beMarker ++ id.data) := by
    rw [String.data_append]
    rfl
  rw [hsplit, matchAfter_append_of_noOccur beMarker '?' _ _ (by decide),
    matchAfter_marker_self beMarker '?' id.data (by decide) (by rw [hq]; exact hne), hq,
    jsOr_some]
  rfl

theorem extractVideoId_shorts (id : String) (hne : id.data ≠ [])
    (hchars : ∀ c ∈ id.data, c ∈ idChars) :
    extractVideoId ("https://www.youtube.com/shorts/" ++ id) = some id := by
  have hbase : ∀ c ∈ "https://www.youtube.com/shorts/".data, ¬ (c = '?' ∨ c = '&') := by
    decide
  have hclean : ∀ c ∈ ("https://www.youtube.com/shorts/" ++ id).data,
      ¬ (c = '?' ∨ c = '&') := by
    rw [String.data_append]
    intro c hc
    rcases List.mem_append.mp hc with hb | hi
    · exact hbase c hb
    · exact idChars_clean c (hchars c hi)
  have hq : id.data.takeWhile (fun x => x ≠ '?') = id.data := by
    refine List.takeWhile_eq_self_iff.mpr ?_
    intro x hx
    have := idChars_clean x (hchars x hx)
    simp only [not_or] at this
    simpa using this.1
  unfold extractVideoId regexCapture
  rw [matchVParam_eq_none _ hclean, jsOr_none]
  have hsplit1 : ("https://www.youtube.com/shorts/" ++ id).data =
      "https://www.youtube.com/shorts/".data ++ id.data := String.data_append _ _
  rw [hsplit1, matchAfter_append_of_noOccur beMarker '?' _ _ (by decide),
    matchAfter_none_of_excluded beMarker '?' idChars id.data (by decide) hchars,
    jsOr_none]
  have hsplit2 : "https://www.youtube.com/shorts/".data ++ id.data =
      "https://www.".data ++ (shortsMarker ++ id.data) := by
    rfl
  rw [hsplit2, matchAfter_append_of_noOccur shortsMarker '?' _ _ (by decide),
    matchAfter_marker_self shortsMarker '?' id.data (by decide) (by rw [hq]; exact hne)]
  rw [hq]
  rfl

/-- C5: every 11-character video identifier over the YouTube id alphabet is
extracted identically from all three supported URL shapes, and the
`https://youtu.be/dQw4w9WgXcQ?feature=share` scenario normalizes to the
canonical watch URL with extracted id `dQw4w9WgXcQ`. -/
theorem extractVideoId_all_shapes_agree (id : String)
    (hlen : id.length = 11) (hchars : ∀ c ∈ id.data, c ∈ idChars) :
    extractVideoId ("https://www.youtube.com/watch?v=" ++ id) = some id ∧
    extractVideoId ("https://youtu.be/" ++ id) = some id ∧
    extractVideoId ("https://www.youtube.com/shorts/" ++ id) = some id ∧
    normalizeYouTubeUrl "https://youtu.be/dQw4w9WgXcQ?feature=share" =
      "https://www.youtube.com/watch?v=dQw4w9WgXcQ" ∧
    extractVideoId "https://youtu.be/dQw4w9WgXcQ?feature=share" = some "dQw4w9WgXcQ" := by
  have hne : id.data ≠ [] := by
    have h1 : id.data.length = 11 := hlen
    intro h0
    rw [h0] at h1
    exact absurd h1 (by decide)
  refine ⟨extractVideoId_watch id hne
      (fun c hc => by
        have := idChars_clean c (hchars c hc)
        simp only [not_or] at this
        exact this.2),
    extractVideoId_be id hne hchars,
    extractVideoId_shorts id hne hchars, by decide, by decide⟩

/-- C5 witness at the concrete identifier `dQw4w9WgXcQ`. -/
theorem extractVideoId_all_shapes_agree_witness :
    extractVideoId ("https://www.youtube.com/watch?v=" ++ "dQw4w9WgXcQ") =
      some "dQw4w9WgXcQ" ∧
    extractVideoId ("https://youtu.be/" ++ "dQw4w9WgXcQ") = some "dQw4w9WgXcQ" ∧
    extractVideoId ("https://www.youtube.com/shorts/" ++ "dQw4w9WgXcQ") =
      some "dQw4w9WgXcQ" ∧
    normalizeYouTubeUrl "https://youtu.be/dQw4w9WgXcQ?feature=share" =
      "https://www.youtube.com/watch?v=dQw4w9WgXcQ" ∧
    extractVideoId "https://youtu.be/dQw4w9WgXcQ?feature=share" = some "dQw4w9WgXcQ" :=
  extractVideoId_all_shapes_agree "dQw4w9WgXcQ" (by decide) (by decide)

/-- Modelled from the claim wording of C4: the identifier is read as the
substring that ends at the next `&` or `?`, whichever comes first. -/
def specCaptureBoth (t : List Char) : List Char :=
  t.takeWhile (fun c => c ≠ '&' ∧ c ≠ '?')

/-- C4 counterexample: on `https://youtu.be/abc&def` the code captures up to
the next `?` only, so the `&` is kept inside the extracted id, while the
claim would stop at the `&`. -/
theorem extractVideoId_c4_counterexample :
    extractVideoId "https://youtu.be/abc&def" = some "abc&def" ∧
    specCaptureBoth "abc&def".data = "abc".data ∧
    ("abc&def" : String) ≠ "abc" := by
  refine ⟨by decide, by decide, by decide⟩

/-- C4 amended: extraction captures the substring after the shape marker up
to the next `&` for the `?v=` shape (a `?` does not terminate it), and up to
the next `?` for the `youtu.be/` and `/shorts/` shapes (an `&` does not
terminate it). -/
theorem extractVideoId_capture_stops (tail : String) :
    (vCapture tail.data ≠ [] →
      extractVideoId ("https://www.youtube.com/watch?v=" ++ tail) =
        some (⟨vCapture tail.data⟩ : String)) ∧
    (matchVParam tail.data = none →
      tail.data.takeWhile (fun c => c ≠ '?') ≠ [] →
      extractVideoId ("https://youtu.be/" ++ tail) =
        some (⟨tail.data.takeWhile (fun c => c ≠ '?')⟩ : String)) ∧
    (matchVParam tail.data = none →
      matchAfter beMarker '?' tail.data = none →
      tail.data.takeWhile (fun c => c ≠ '?') ≠ [] →
      extractVideoId ("https://www.youtube.com/shorts/" ++ tail) =
        some (⟨tail.data.takeWhile (fun c => c ≠ '?')⟩ : String)) := by
  refine ⟨fun hcap => ?_, fun hv hq => ?_, fun hv hbe hq => ?_⟩
  · unfold extractVideoId regexCapture
    rw [watch_data_split,
      matchVParam_append_of_clean "https://www.youtube.com/watch".data _ (by decide),
      matchVParam_qveq tail.data hcap, jsOr_some]
    rfl
  · unfold extractVideoId regexCapture
    have hsplit : ("https://youtu.be/" ++ tail).data =
        "https://youtu.be/".data ++ tail.data := String.data_append _ _
    have hv2 : matchVParam ("https://youtu.be/" ++ tail).data = none := by
      rw [hsplit,
        matchVParam_append_of_clean "https://youtu.be/".data _ (by decide), hv]
    rw [hv2, jsOr_none, hsplit,
      show "https://youtu.be/".data ++ tail.data =
        "https://".data ++ (beMarker ++ tail.data) from rfl,
      matchAfter_append_of_noOccur beMarker '?' _ _ (by decide),
      matchAfter_marker_self beMarker '?' tail.data (by decide) hq, jsOr_some]
    rfl
  · unfold extractVideoId regexCapture
    have hsplit : ("https://www.youtube.com/shorts/" ++ tail).data =
        "https://www.youtube.com/shorts/".data ++ tail.data := String.data_append _ _
    have hv2 : matchVParam ("https://www.youtube.com/shorts/" ++ tail).data = none := by
      rw [hsplit,
        matchVParam_append_of_clean "https://www.youtube.com/shorts/".data _ (by decide),
        hv]
    rw [hv2, jsOr_none, hsplit,
      matchAfter_append_of_noOccur beMarker '?' _ _ (by decide), hbe, jsOr_none,
      show "https://www.youtube.com/shorts/".data ++ tail.data =
        "https://www.".data ++ (shortsMarker ++ tail.data) from rfl,
      matchAfter_append_of_noOccur shortsMarker '?' _ _ (by decide),
      matchAfter_marker_self shortsMarker '?' tail.data (by decide) hq]
    rfl

/-- C4 amended witness: concrete tails exercising each shape, with a `?`
kept inside a `?v=` capture and a `&` kept inside the other two captures. -/
theorem extractVideoId_capture_stops_witness :
    extractVideoId ("https://www.youtube.com/watch?v=" ++ "ab?cd") = some "ab?cd" ∧
    extractVideoId ("https://youtu.be/" ++ "ab&cd") = some "ab&cd" ∧
    extractVideoId ("https://www.youtube.com/shorts/" ++ "ab&cd") = some "ab&cd" :=
  ⟨(extractVideoId_capture_stops "ab?cd").1 (by decide),
   (extractVideoId_capture_stops "ab&cd").2.1 (by decide) (by decide),
   (extractVideoId_capture_stops "ab&cd").2.2 (by decide) (by decide) (by decide)⟩

/-- C10 counterexample: normalization is not idempotent; a `youtu.be` URL
whose captured segment contains `&` renormalizes to a strictly shorter
watch URL. -/
theorem normalizeYouTubeUrl_not_idempotent :
    normalizeYouTubeUrl (normalizeYouTubeUrl "https://youtu.be/a&b") ≠
      normalizeYouTubeUrl "https://youtu.be/a&b" := by
  decide

/-- C10 amended: normalization is total and returns any non-matching input
unchanged, with extraction null on such inputs; and normalizing twice equals
normalizing once whenever the captured segment contains no `&`. -/
theorem normalizeYouTubeUrl_total_and_conditionally_idempotent (s : String) :
    (regexCapture s = none → normalizeYouTubeUrl s = s ∧ extractVideoId s = none) ∧
    (∀ cap, regexCapture s = some cap → (∀ c ∈ cap, c ≠ '&') →
      normalizeYouTubeUrl (normalizeYouTubeUrl s) = normalizeYouTubeUrl s) := by
  constructor
  · intro hnone
    constructor
    · unfold normalizeYouTubeUrl
      by_cases hs : s = ""
      · rw [if_pos hs]
      · rw [if_neg hs, hnone]
    · unfold extractVideoId
      rw [hnone]
      rfl
  · intro cap hcap hamp
    have hs : s ≠ "" := by
      intro h0
      rw [h0] at hcap
      exact Option.noConfusion ((show regexCapture "" = none from rfl) ▸ hcap)
    have hstep : normalizeYouTubeUrl s =
        "https://www.youtube.com/watch?v=" ++ (⟨cap⟩ : String) := by
      unfold normalizeYouTubeUrl
      rw [if_neg hs, hcap]
    have hne : cap ≠ [] := regexCapture_ne_nil s cap hcap
    have hvcap : vCapture cap = cap := by
      refine List.takeWhile_eq_self_iff.mpr ?_
      intro x hx
      simpa using hamp x hx
    have hmatch : matchVParam ("https://www.youtube.com/watch?v=" ++ (⟨cap⟩ : String)).data =
        some cap := by
      rw [watch_data_split,
        matchVParam_append_of_clean "https://www.youtube.com/watch".data _ (by decide)]
      have := matchVParam_qveq cap (by rw [hvcap]; exact hne)
      rw [hvcap] at this
      exact this
    have hne2 : ("https://www.youtube.com/watch?v=" ++ (⟨cap⟩ : String)) ≠ "" := by
      intro h0
      have hdata : ("https://www.youtube.com/watch?v=" ++ (⟨cap⟩ : String)).data = [] := by
        rw [h0]
      rw [String.data_append] at hdata
      exact absurd (List.append_eq_nil.mp hdata).1 (by decide)
    rw [hstep]
    unfold normalizeYouTubeUrl
    rw [if_neg hne2]
    unfold regexCapture
    rw [hmatch, jsOr_some]

/-- C10 amended witness: a non-matching input is returned unchanged with a
null extraction, and a matching `&`-free input normalizes idempotently. -/
theorem normalizeYouTubeUrl_total_witness :
    (normalizeYouTubeUrl "hello world" = "hello world" ∧
      extractVideoId "hello world" = none) ∧
    normalizeYouTubeUrl (normalizeYouTubeUrl "https://youtu.be/abc") =
      normalizeYouTubeUrl "https://youtu.be/abc" :=
  ⟨(normalizeYouTubeUrl_total_and_conditionally_idempotent "hello world").1 (by decide),
   (normalizeYouTubeUrl_total_and_conditionally_idempotent "https://youtu.be/abc").2
     "abc".data (by decide) (by decide)⟩

/-! ## Output formatting (api/transcript-simple.js and backend/api/health.js) -/

/-- Transcript segment as handled by the formatters: `text`, `offset` is the
start in milliseconds, `duration` in milliseconds. -/
structure TranscriptItem where
  text : String
  offset : Nat
  duration : Nat

/-- Embedding of `formatTranscriptAsText(transcript)`. -/
def formatTranscriptAsText (transcript : List TranscriptItem) : String :=
  joinWith " " (transcript.map fun item => item.text)

/-- JS `String(n).padStart(w, "0")` for a natural number. -/
def padZero (n : Nat) (w : Nat) : String :=
  (⟨List.replicate (w - (toString n).length) '0'⟩ : String) ++ toString n

/-- Embedding of `formatTime(milliseconds)`: the locals `totalSeconds`,
`hours`, `minutes`, `seconds` and `ms` are inlined. -/
def formatTime (milliseconds : Nat) : String :=
  padZero (milliseconds / 1000 / 3600) 2 ++ ":" ++
    padZero (milliseconds / 1000 % 3600 / 60) 2 ++ ":" ++
    padZero (milliseconds / 1000 % 60) 2 ++ "," ++
    padZero (milliseconds % 1000) 3

/-- Embedding of `formatTranscriptAsSrt(transcript)`. -/
def formatTranscriptAsSrt (transcript : List TranscriptItem) : String :=
  joinWith "\n" (transcript.mapIdx fun index item =>
    toString (index + 1) ++ "\n" ++ formatTime item.offset ++ " --> " ++
      formatTime (item.offset + item.duration) ++ "\n" ++ item.text ++ "\n")

/-- Spec-side space join: the concatenation of the strings in input order
with a single space between consecutive elements, empty on the empty list. -/
def spaceJoined : List String → String
  | [] => ""
  | x :: xs => xs.foldl (fun acc s => acc ++ " " ++ s) x

theorem append_foldl (sep : String) (ys : List String) :
    ∀ a b : String, a ++ ys.foldl (fun acc s => acc ++ sep ++ s) b =
      ys.foldl (fun acc s => acc ++ sep ++ s) (a ++ b) := by
  induction ys with
  | nil => intro a b; rfl
  | cons y ys ih =>
    intro a b
    simp only [List.foldl_cons]
    rw [ih a (b ++ sep ++ y)]
    simp [String.append_assoc]

theorem joinWith_cons_eq_foldl (sep : String) (xs : List String) :
    ∀ x : String, joinWith sep (x :: xs) = xs.foldl (fun acc s => acc ++ sep ++ s) x := by
  induction xs with
  | nil => intro x; rfl
  | cons y ys ih =>
    intro x
    rw [joinWith, ih y, List.foldl_cons]
    exact append_foldl sep ys (x ++ sep) y

/-- C6: `formatTranscriptAsText` equals the space-joined concatenation of the
segment texts in input order, and yields the empty string on the empty
sequence. -/
theorem formatTranscriptAsText_spec (transcript : List TranscriptItem) :
    formatTranscriptAsText transcript =
      spaceJoined (transcript.map fun item => item.text) ∧
    formatTranscriptAsText [] = "" := by
  constructor
  · cases transcript with
    | nil => rfl
    | cons a rest =>
      exact joinWith_cons_eq_foldl " " (rest.map fun item => item.text) a.text
  · rfl

/-- Spec-side timestamp rendering `HH:MM:SS,mmm`, computed directly from
milliseconds: hours, minutes within the hour, seconds within the minute and
leftover milliseconds, zero-padded to 2, 2, 2 and 3 digits. -/
def specFormatTime (ms : Nat) : String :=
  padZero (ms / 3600000) 2 ++ ":" ++ padZero (ms / 60000 % 60) 2 ++ ":" ++
    padZero (ms / 1000 % 60) 2 ++ "," ++ padZero (ms % 1000) 3

theorem formatTime_eq_spec (ms : Nat) : formatTime ms = specFormatTime ms := by
  unfold formatTime specFormatTime
  have h1 : ms / 1000 / 3600 = ms / 3600000 := by omega
  have h2 : ms / 1000 % 3600 / 60 = ms / 60000 % 60 := by omega
  rw [h1, h2]

/-- Spec-side SRT block at 1-based index `k`: index line, start and end
timestamps where the end equals start plus duration, then the text. -/
def specSrtBlock (k : Nat) (item : TranscriptItem) : String :=
  toString k ++ "\n" ++ specFormatTime item.offset ++ " --> " ++
    specFormatTime (item.offset + item.duration) ++ "\n" ++ item.text

/-- Spec-side block list numbered consecutively starting at `k`. -/
def specSrtBlocks (k : Nat) : List TranscriptItem → List String
  | [] => []
  | item :: rest => specSrtBlock k item :: specSrtBlocks (k + 1) rest

/-- Spec-side SRT document: the blocks, numbered from 1, separated by blank
lines, with a single trailing newline. -/
def specSrt (transcript : List TranscriptItem) : String :=
  match transcript with
  | [] => ""
  | _ => joinWith "\n\n" (specSrtBlocks 1 transcript) ++ "\n"

theorem mapIdx_specSrtBlocks (t : List TranscriptItem) :
    ∀ k : Nat, (t.mapIdx fun i item => specSrtBlock (i + k + 1) item ++ "\n") =
      (specSrtBlocks (k + 1) t).map (fun b => b ++ "\n") := by
  induction t with
  | nil => intro k; rfl
  | cons a rest ih =>
    intro k
    rw [List.mapIdx_cons]
    have hf : (fun i item => specSrtBlock (i + 1 + k + 1) item ++ "\n") =
        (fun i item => specSrtBlock (i + (k + 1) + 1) item ++ "\n") := by
      funext i item
      have h1 : i + 1 + k + 1 = i + (k + 1) + 1 := by omega
      rw [h1]
    rw [hf, ih (k + 1), specSrtBlocks, List.map_cons]
    have h0 : 0 + k + 1 = k + 1 := by omega
    rw [h0]

theorem joinWith_map_append_nl (bs : List String) :
    ∀ b : String, joinWith "\n" ((b :: bs).map (fun x => x ++ "\n")) =
      joinWith "\n\n" (b :: bs) ++ "\n" := by
  induction bs with
  | nil => intro b; rfl
  | cons c cs ih =>
    intro b
    rw [List.map_cons, List.map_cons, joinWith]
    rw [show ((c ++ "\n") :: cs.map (fun x => x ++ "\n")) =
      ((c :: cs).map fun x => x ++ "\n") from rfl, ih c, joinWith]
    have hnl : ("\n" : String) ++ "\n" = "\n\n" := by decide
    simp [String.append_assoc, hnl]

/-- C7: `formatTranscriptAsSrt` renders one block per segment with 1-based
indices, `HH:MM:SS,mmm` timestamps zero-padded to 2/2/2/3 digits, end time
equal to start plus duration, blocks separated by blank lines; and the
segment at `startMs = 65000`, `durationMs = 2500` renders start
`00:01:05,000` and end `00:01:07,500`. -/
theorem formatTranscriptAsSrt_spec (transcript : List TranscriptItem) :
    formatTranscriptAsSrt transcript = specSrt transcript ∧
    formatTime 65000 = "00:01:05,000" ∧
    formatTime (65000 + 2500) = "00:01:07,500" := by
  refine ⟨?_, by decide, by decide⟩
  unfold formatTranscriptAsSrt
  simp only [formatTime_eq_spec]
  have hf : (fun (i : Nat) (item : TranscriptItem) =>
      toString (i + 1) ++ "\n" ++ specFormatTime item.offset ++ " --> " ++
        specFormatTime (item.offset + item.duration) ++ "\n" ++ item.text ++ "\n") =
      (fun i item => specSrtBlock (i + 0 + 1) item ++ "\n") := by
    funext i item
    unfold specSrtBlock
    rw [Nat.add_zero]
  rw [hf, mapIdx_specSrtBlocks transcript 0]
  cases transcript with
  | nil => rfl
  | cons a rest =>
    show joinWith "\n" ((specSrtBlocks 1 (a :: rest)).map (fun b => b ++ "\n")) =
      joinWith "\n\n" (specSrtBlocks 1 (a :: rest)) ++ "\n"
    rw [specSrtBlocks]
    exact joinWith_map_append_nl (specSrtBlocks (1 + 1) rest) (specSrtBlock 1 a)

/-! ## Audio candidate selection (Piped `pickAudioAndExt`, ytdl `guessExt`) -/

/-- JS `typeof`-dispatched bitrate field of a Piped audio stream entry: a
number, a string, or absent. -/
inductive BitrateField : Type
  | num (n : Int)
  | str (s : String)
  | undef
deriving DecidableEq

/-- Audio stream entry returned by a Piped mirror. Absent string metadata is
modelled as the empty string, which the JS `||` chains treat like
undefined. -/
structure AudioStream where
  url : String
  bitrate : BitrateField
  mimeType : String
  type : String
  codec : String
  container : String
deriving DecidableEq

/-- First maximal digit run of a string, as matched by the regex
`/(\d+)/`. -/
def firstDigitRun : List Char → Option (List Char)
  | [] => none
  | c :: rest =>
    if c.isDigit then some (c :: rest.takeWhile Char.isDigit) else firstDigitRun rest

/-- Decimal value of a digit list, as computed by `parseInt` on the digit
run. -/
def digitsVal (l : List Char) : Nat :=
  l.foldl (fun a c => a * 10 + (c.toNat - '0'.toNat)) 0

/-- Parsed bitrate `__br`: numeric bitrates pass through, string bitrates
contribute their first digit run, anything else is 0. -/
def parseBitrate : BitrateField → Int
  | .num n => n
  | .str s =>
    match firstDigitRun s.data with
    | some ds => (digitsVal ds : Int)
    | none => 0
  | .undef => 0

def streamBr (s : AudioStream) : Int := parseBitrate s.bitrate

/-- Character-wise lowercasing, modelling `String.prototype.toLowerCase` on
the ASCII metadata handled here. -/
def lowerStr (s : String) : String := (⟨s.data.map Char.toLower⟩ : String)

/-- JS `String.prototype.includes` on character lists. -/
def listHas : List Char → List Char → Bool
  | [], sub => sub.isEmpty
  | c :: rest, sub => sub.isPrefixOf (c :: rest) || listHas rest sub

def strHas (hay sub : String) : Bool := listHas hay.data sub.data

/-- Extension inference of the Piped `pickAudioAndExt`: defaults to `webm`
and only switches on specific mime/container/codec patterns; an explicit
container is consulted only for the `mp4` pattern. -/
def pipedMime (chosen : AudioStream) : String :=
  lowerStr (if chosen.mimeType ≠ "" then chosen.mimeType else chosen.type)

def pipedExt (chosen : AudioStream) : String :=
  if strHas (pipedMime chosen) "mp4" || strHas (pipedMime chosen) "m4a" ||
      strHas (lowerStr chosen.container) "mp4" || strHas (lowerStr chosen.codec) "aac"
  then "m4a"
  else if strHas (pipedMime chosen) "mp3" then "mp3"
  else if strHas (pipedMime chosen) "ogg" || strHas (pipedMime chosen) "opus" then "webm"
  else "webm"

/-- Comparator of the Piped picker: `(a, b) => b.__br - a.__br` sorts by
parsed bitrate descending. -/
def brDesc (a b : AudioStream) : Bool := streamBr b ≤ streamBr a

/-- Embedding of the Piped `pickAudioAndExt`: candidates keyed by parsed
bitrate, sorted descending (JS sort is stable), first entry chosen; returns
its url and inferred extension, or null for an empty candidate list. -/
def pickAudioAndExt (list : List AudioStream) : Option (String × String) :=
  match list.mergeSort brDesc with
  | [] => none
  | chosen :: _ => some (chosen.url, pipedExt chosen)

/-- Bitrate fields in the shape quantified over by C8: numbers, or strings
containing at least one digit. -/
def bitrateShaped : BitrateField → Prop
  | .num _ => True
  | .str s => ∃ c ∈ s.data, c.isDigit
  | .undef => False

theorem pickAudioAndExt_picks_head (list : List AudioStream)
    (chosen : AudioStream) (rest : List AudioStream)
    (h : list.mergeSort brDesc = chosen :: rest) :
    pickAudioAndExt list = some (chosen.url, pipedExt chosen) := by
  unfold pickAudioAndExt
  rw [h]

/-- C8: for every non-empty candidate list whose bitrate fields are numbers
or digit-bearing strings, the picker selects a member of the list whose
parsed bitrate is maximal. -/
theorem pickAudioAndExt_max (list : List AudioStream) (hne : list ≠ [])
    (hshape : ∀ s ∈ list, bitrateShaped s.bitrate) :
    ∃ chosen ∈ list, pickAudioAndExt list = some (chosen.url, pipedExt chosen) ∧
      ∀ x ∈ list, streamBr x ≤ streamBr chosen := by
  have hperm := List.mergeSort_perm list brDesc
  have hsorted : List.Pairwise (fun a b => brDesc a b = true) (list.mergeSort brDesc) :=
    List.sorted_mergeSort
      (fun a b c hab hbc => by
        simp only [brDesc, decide_eq_true_eq] at *
        exact le_trans hbc hab)
      (fun a b => by
        simp only [brDesc, Bool.or_eq_true, decide_eq_true_eq]
        exact le_total (streamBr b) (streamBr a))
      list
  cases hms : list.mergeSort brDesc with
  | nil =>
    rw [hms] at hperm
    exact absurd (hperm.symm.eq_nil ▸ rfl) hne
  | cons chosen rest =>
    rw [hms] at hperm hsorted
    refine ⟨chosen, hperm.mem_iff.mp (List.mem_cons_self chosen rest),
      pickAudioAndExt_picks_head list chosen rest hms, ?_⟩
    intro x hx
    rcases List.mem_cons.mp (hperm.symm.mem_iff.mp hx) with hx1 | hx2
    · rw [hx1]
    · have := List.rel_of_pairwise_cons hsorted hx2
      simpa [brDesc] using this

/-- C8 witness: from candidates with bitrates `"64 kbps"`, `128` and
`"96kbps"`, the entry with bitrate `128` is selected. -/
theorem pickAudioAndExt_max_witness :
    pickAudioAndExt
        [⟨"u64", .str "64 kbps", "", "", "", ""⟩,
         ⟨"u128", .num 128, "", "", "", ""⟩,
         ⟨"u96", .str "96kbps", "", "", "", ""⟩] =
      some ("u128", "webm") := by
  have h := pickAudioAndExt_max
      [⟨"u64", .str "64 kbps", "", "", "", ""⟩,
       ⟨"u128", .num 128, "", "", "", ""⟩,
       ⟨"u96", .str "96kbps", "", "", "", ""⟩]
      (by decide)
      (by
        intro s hs
        fin_cases hs
        · exact ⟨'6', by decide, by decide⟩
        · trivial
        · exact ⟨'9', by decide, by decide⟩)
  rcases h with ⟨chosen, hmem, hpick, hmax⟩
  have h128 : streamBr (⟨"u128", .num 128, "", "", "", ""⟩ : AudioStream) ≤ streamBr chosen :=
    hmax _ (by decide)
  have hbr : (128 : Int) ≤ streamBr chosen := by
    simpa [streamBr, parseBitrate] using h128
  fin_cases hmem
  · exact absurd hbr (by decide)
  · rw [hpick]
    decide
  · exact absurd hbr (by decide)

/-- Audio format descriptor consumed by the ytdl `guessExt`: declared
container and MIME type, with the empty string for absent fields. -/
structure FormatDesc where
  container : String
  mimeType : String

/-- Embedding of `guessExt(fmt)` from backend/index.js: lowercased container
when non-empty, otherwise inference from the MIME type, otherwise `webm`. -/
def guessExt (fmt : FormatDesc) : String :=
  if lowerStr fmt.container ≠ "" then lowerStr fmt.container
  else if strHas (lowerStr fmt.mimeType) "webm" || strHas (lowerStr fmt.mimeType) "opus"
  then "webm"
  else if strHas (lowerStr fmt.mimeType) "mp4" || strHas (lowerStr fmt.mimeType) "m4a" ||
      strHas (lowerStr fmt.mimeType) "aac"
  then "m4a"
  else if strHas (lowerStr fmt.mimeType) "mpeg" then "mp3"
  else if strHas (lowerStr fmt.mimeType) "ogg" then "ogg"
  else "webm"

/-- MIME-only extension inference, as the spec words the second precedence
level of `guessExt`. -/
def mimeInferredExt (mimeType : String) : String :=
  if strHas (lowerStr mimeType) "webm" || strHas (lowerStr mimeType) "opus" then "webm"
  else if strHas (lowerStr mimeType) "mp4" || strHas (lowerStr mimeType) "m4a" ||
      strHas (lowerStr mimeType) "aac"
  then "m4a"
  else if strHas (lowerStr mimeType) "mpeg" then "mp3"
  else if strHas (lowerStr mimeType) "ogg" then "ogg"
  else "webm"

theorem lowerStr_eq_empty_iff (s : String) : lowerStr s = "" ↔ s = "" := by
  constructor
  · intro h
    have hdata : s.data.map Char.toLower = [] := congrArg String.data h
    have : s.data = [] := List.map_eq_nil_iff.mp hdata
    cases s
    simp_all
  · intro h
    rw [h]
    rfl

/-- C9 amended: the ytdl `guessExt` follows the documented precedence with
the container lowercased: a non-empty container yields its lowercased form,
an empty container defers to MIME inference, and when no MIME pattern
matches the default is `webm`. -/
theorem guessExt_precedence (fmt : FormatDesc) :
    (fmt.container ≠ "" → guessExt fmt = lowerStr fmt.container) ∧
    (fmt.container = "" → guessExt fmt = mimeInferredExt fmt.mimeType) ∧
    (fmt.container = "" →
      strHas (lowerStr fmt.mimeType) "webm" = false →
      strHas (lowerStr fmt.mimeType) "opus" = false →
      strHas (lowerStr fmt.mimeType) "mp4" = false →
      strHas (lowerStr fmt.mimeType) "m4a" = false →
      strHas (lowerStr fmt.mimeType) "aac" = false →
      strHas (lowerStr fmt.mimeType) "mpeg" = false →
      strHas (lowerStr fmt.mimeType) "ogg" = false →
      guessExt fmt = "webm") := by
  refine ⟨fun hc => ?_, fun hc => ?_, fun hc h1 h2 h3 h4 h5 h6 h7 => ?_⟩
  · unfold guessExt
    rw [if_pos (fun h0 => hc ((lowerStr_eq_empty_iff fmt.container).mp h0))]
  · unfold guessExt mimeInferredExt
    rw [if_neg (fun h0 => h0 ((lowerStr_eq_empty_iff fmt.container).mpr hc))]
  · unfold guessExt
    rw [if_neg (fun h0 => h0 ((lowerStr_eq_empty_iff fmt.container).mpr hc))]
    rw [h1, h2, h3, h4, h5, h6, h7]
    rfl

/-- C9 amended witness: a `MP4` container is used (lowercased), an empty
container defers to the MIME type, and an unrecognized MIME defaults to
`webm`. -/
theorem guessExt_precedence_witness :
    guessExt ⟨"MP4", "audio/webm"⟩ = "mp4" ∧
    guessExt ⟨"", "audio/webm"⟩ = "webm" ∧
    guessExt ⟨"", "application/x-test"⟩ = "webm" :=
  ⟨by
    have h := (guessExt_precedence ⟨"MP4", "audio/webm"⟩).1 (by decide)
    rw [h]
    decide,
   by
    have h := (guessExt_precedence ⟨"", "audio/webm"⟩).2.1 rfl
    rw [h]
    decide,
   (guessExt_precedence ⟨"", "application/x-test"⟩).2.2 rfl (by decide) (by decide)
     (by decide) (by decide) (by decide) (by decide) (by decide)⟩

/-- C9 counterexample: the Piped adapter does not give the container field
precedence — an explicit `ogg` container with no other metadata yields
extension `webm`, not `ogg`; and even `guessExt` returns the lowercased
container rather than the field verbatim. -/
theorem pipedExt_c9_counterexample :
    pipedExt ⟨"u", .undef, "", "", "", "ogg"⟩ = "webm" ∧
    ("webm" : String) ≠ "ogg" ∧
    guessExt ⟨"OGG", ""⟩ = "ogg" ∧ ("ogg" : String) ≠ "OGG" := by
  refine ⟨by decide, by decide, by decide, by decide⟩

/-! ## Piped mirror fallback loop (`getPipedStreams` with `attemptsLog`) -/

/-- One record of the `attemptsLog`: `{ base, ok }` for a success and
`{ base, ok, error }` for a failure. -/
structure PipedAttempt where
  base : String
  ok : Bool
  error : Option String
deriving DecidableEq

/-- Embedding of the loop of `getPipedStreams(videoId, timeoutMs,
attemptsLog)`: walks the mirror bases in order, pushing exactly one log
record per fetch; returns the first successful payload; after exhausting all
bases it throws `Piped streams fetch failed: <last error message>` (or
`no instances available` when no base was tried). The outcome of
`getPipedStreamsFrom` on each base is supplied by the `fetch` oracle. -/
def getPipedStreamsGo {α : Type} (fetch : String → Except String α) :
    List String → List PipedAttempt → Option String →
      List PipedAttempt × Except String α
  | [], log, lastErr =>
    (log, Except.error ("Piped streams fetch failed: " ++ lastErr.getD "no instances available"))
  | base :: rest, log, lastErr =>
    match fetch base with
    | Except.ok json => (log ++ [⟨base, true, none⟩], Except.ok json)
    | Except.error e =>
      getPipedStreamsGo fetch rest (log ++ [⟨base, false, some e⟩]) (some e)

def getPipedStreams {α : Type} (fetch : String → Except String α)
    (bases : List String) : List PipedAttempt × Except String α :=
  getPipedStreamsGo fetch bases [] none

theorem getPipedStreamsGo_exhausted {α : Type} (fetch : String → Except String α)
    (errOf : String → String) (bases : List String) (bl : String) :
    ∀ (log : List PipedAttempt) (lastErr : Option String),
      (∀ b ∈ bases, fetch b = Except.error (errOf b)) →
      bases.getLast? = some bl →
      getPipedStreamsGo fetch bases log lastErr =
        (log ++ bases.map fun b => ⟨b, false, some (errOf b)⟩,
         Except.error ("Piped streams fetch failed: " ++ errOf bl)) := by
  induction bases with
  | nil => intro log lastErr hfail hlast; exact absurd hlast (by simp)
  | cons b rest ih =>
    intro log lastErr hfail hlast
    rw [getPipedStreamsGo]
    simp only [hfail b (List.mem_cons_self b rest)]
    match rest with
    | [] =>
      have hbl : b = bl := by
        rw [List.getLast?_singleton] at hlast
        exact Option.some.inj hlast
      rw [getPipedStreamsGo]
      simp [hbl]
    | c :: rest2 =>
      rw [List.getLast?_cons_cons] at hlast
      have hih := ih (log ++ [(⟨b, false, some (errOf b)⟩ : PipedAttempt)]) (some (errOf b))
        (fun x hx => hfail x (List.mem_cons_of_mem b hx)) hlast
      rw [hih]
      simp

/-- C1 amended: when every mirror fails, the attempts log contains exactly
one failed record per mirror, in strategy order, with no successful record,
and the thrown error is `Piped streams fetch failed:` followed by the last
error message only. -/
theorem getPipedStreams_exhausted {α : Type} (fetch : String → Except String α)
    (errOf : String → String) (bases : List String) (bl : String)
    (hfail : ∀ b ∈ bases, fetch b = Except.error (errOf b))
    (hlast : bases.getLast? = some bl) :
    getPipedStreams fetch bases =
      (bases.map fun b => ⟨b, false, some (errOf b)⟩,
       Except.error ("Piped streams fetch failed: " ++ errOf bl)) := by
  unfold getPipedStreams
  rw [getPipedStreamsGo_exhausted fetch errOf bases bl [] none hfail hlast]
  rw [List.nil_append]

/-- C1 amended witness: two mirrors both failing with `down`. -/
theorem getPipedStreams_exhausted_witness :
    getPipedStreams (fun _ => (Except.error "down" : Except String Unit)) ["m1", "m2"] =
      ([⟨"m1", false, some "down"⟩, ⟨"m2", false, some "down"⟩],
       Except.error ("Piped streams fetch failed: " ++ "down")) :=
  getPipedStreams_exhausted (fun _ => (Except.error "down" : Except String Unit))
    (fun _ => "down") ["m1", "m2"] "m2" (fun b _ => rfl) rfl

/-- C1 counterexample: the surfaced error depends only on the last mirror
error; two exhausted runs whose earlier attempts failed with different
errors produce the identical surfaced error, so the error cannot aggregate
all attempts, even though the logs differ. -/
theorem getPipedStreams_error_not_aggregated :
    (getPipedStreams
        (fun b => if b = "m1" then (Except.error "alpha failure" : Except String Unit)
          else Except.error "omega failure") ["m1", "m2"]).2 =
      (getPipedStreams
        (fun b => if b = "m1" then (Except.error "beta failure" : Except String Unit)
          else Except.error "omega failure") ["m1", "m2"]).2 ∧
    (getPipedStreams
        (fun b => if b = "m1" then (Except.error "alpha failure" : Except String Unit)
          else Except.error "omega failure") ["m1", "m2"]).1 ≠
      (getPipedStreams
        (fun b => if b = "m1" then (Except.error "beta failure" : Except String Unit)
          else Except.error "omega failure") ["m1", "m2"]).1 := by
  refine ⟨rfl, by decide⟩

theorem getPipedStreamsGo_short_circuit {α : Type} (fetch : String → Except String α)
    (b : String) (post : List String) (v : α) (hb : fetch b = Except.ok v)
    (pre : List String) (hpre : ∀ x ∈ pre, ∃ e, fetch x = Except.error e) :
    ∀ (log : List PipedAttempt) (lastErr : Option String),
      ∃ fl : List PipedAttempt,
        getPipedStreamsGo fetch (pre ++ b :: post) log lastErr =
          (log ++ fl ++ [⟨b, true, none⟩], Except.ok v) ∧
        fl.map (fun a => a.base) = pre ∧ ∀ a ∈ fl, a.ok = false := by
  induction pre with
  | nil =>
    intro log lastErr
    refine ⟨[], ?_, rfl, by simp⟩
    rw [List.nil_append, getPipedStreamsGo]
    simp only [hb]
    simp
  | cons p pre2 ih =>
    intro log lastErr
    rcases hpre p (List.mem_cons_self p pre2) with ⟨e, he⟩
    rcases ih (fun x hx => hpre x (List.mem_cons_of_mem p hx))
      (log ++ [⟨p, false, some e⟩]) (some e) with ⟨fl, hgo, hmap, hok⟩
    refine ⟨⟨p, false, some e⟩ :: fl, ?_, by simp [hmap], ?_⟩
    · rw [List.cons_append, getPipedStreamsGo]
      simp only [he]
      rw [hgo]
      simp
    · intro a ha
      rcases List.mem_cons.mp ha with h1 | h2
      · rw [h1]
      · exact hok a h2

/-- C2: when the mirrors before `b` all fail and `b` succeeds with payload
`v`, the loop returns `v`, and the attempts log records exactly the failed
mirrors before `b` followed by the success record for `b` — the mirrors
after `b` are never fetched (every fetch appends its record to the log). -/
theorem getPipedStreams_short_circuit {α : Type} (fetch : String → Except String α)
    (pre : List String) (b : String) (post : List String) (v : α)
    (hpre : ∀ x ∈ pre, ∃ e, fetch x = Except.error e)
    (hb : fetch b = Except.ok v) :
    (getPipedStreams fetch (pre ++ b :: post)).2 = Except.ok v ∧
    ((getPipedStreams fetch (pre ++ b :: post)).1.map fun a => a.base) = pre ++ [b] := by
  rcases getPipedStreamsGo_short_circuit fetch b post v hb pre hpre [] none
    with ⟨fl, hgo, hmap, _⟩
  unfold getPipedStreams
  rw [hgo]
  constructor
  · rfl
  · simp [hmap]

/-- C2 witness: the first mirror fails, the second succeeds, the third is
never fetched. -/
theorem getPipedStreams_short_circuit_witness :
    (getPipedStreams (fun x => if x = "good" then Except.ok 42 else Except.error "down")
        (["bad1"] ++ "good" :: ["never"])).2 = Except.ok 42 ∧
    ((getPipedStreams (fun x => if x = "good" then Except.ok 42 else Except.error "down")
        (["bad1"] ++ "good" :: ["never"])).1.map fun a => a.base) = ["bad1"] ++ ["good"] :=
  getPipedStreams_short_circuit
    (fun x => if x = "good" then Except.ok 42 else Except.error "down")
    ["bad1"] "good" ["never"] 42
    (fun x hx => ⟨"down", by
      have hx1 : x = "bad1" := by simpa using hx
      rw [hx1]
      rfl⟩)
    rfl

/-! ## Temp-directory lifecycle of the Piped and yt-dlp handlers -/

/-- Outcome of the audio download fetch in the Piped handler: an OK
response with a body, a non-OK HTTP response, or a thrown exception. -/
inductive FetchOutcome : Type
  | ok
  | httpFail
  | thrown
deriving DecidableEq

/-- Temp-directory lifecycle of the Piped transcript handler (the variant
whose transcription call is not wrapped in its own try/catch): after
`tmpDir` is created, the handler runs the audio download fetch, the stream
pipeline and the transcription call; the result is the HTTP status and
whether `fs.rmSync(tmpDir, ...)` ran before the handler returned. A thrown
exception lands in the outer catch, which performs no cleanup. -/
def pipedHandlerCleanup (download : FetchOutcome) (pipelineThrows : Bool)
    (transcribeThrows : Bool) : Nat × Bool :=
  match download with
  | .httpFail => (502, true)
  | .thrown => (500, false)
  | .ok =>
    if pipelineThrows then (500, false)
    else if transcribeThrows then (500, false)
    else (200, true)

/-- Temp-directory lifecycle of the yt-dlp handler: the yt-dlp invocation
and the no-supported-file check clean up in their guarded branches, but a
throwing transcription call lands in the outer catch without cleanup. -/
def ytdlpHandlerCleanup (execThrows : Bool) (hasAudioFile : Bool)
    (transcribeThrows : Bool) : Nat × Bool :=
  if execThrows then (500, true)
  else if !hasAudioFile then (500, true)
  else if transcribeThrows then (500, false)
  else (200, true)

/-- C3: the temp directory is removed on the success path and on the guarded
failure paths, but when the transcription call throws (in either cited
handler) the handler returns 500 via the outer catch without removing the
temp directory — contradicting the unconditional-cleanup claim. -/
theorem handler_cleanup_c3 :
    (pipedHandlerCleanup .ok false false).2 = true ∧
    (pipedHandlerCleanup .httpFail false false).2 = true ∧
    (pipedHandlerCleanup .ok false true) = (500, false) ∧
    (pipedHandlerCleanup .thrown false false) = (500, false) ∧
    (ytdlpHandlerCleanup true true false).2 = true ∧
    (ytdlpHandlerCleanup false true true) = (500, false) := by
  decide

end YtTranscriber
